import Mathlib

/-!
# Signal-analyzer acquisition engine (alpha15 `Decimator` and `FFT` drivers)

A shallow embedding of `examples/alpha15/signal-analyzer/decimator.hpp` and
`examples/alpha15/signal-analyzer/fft.hpp`.

Conventions of the embedding:

* `float` / `double` values are exact rationals (`ℚ`); no rounding is modelled.
* `uint32_t` values are natural numbers (callers pass values below `2 ^ 32`).
* Diagnostic log messages (`ctx.log`) are not part of the state.
* Build-time constants of the `prm::` namespace and the numeric library
  `scicpp` are not part of the driver sources; they are parameters.
* Every method takes the object state and returns the new state.
-/

namespace Koheron

/-- Build-time parameters of the instrument (the `prm::` namespace, generated at
build time and absent from the driver sources). -/
structure Prm where
  fft_size : Nat
  n_cycles : Nat
  cic_decimation_rate_min : Nat
  cic_decimation_rate_max : Nat
deriving DecidableEq

/-! ## Decimator -/

namespace Decimator

/-- Embeds `static constexpr uint32_t n_fifo = 16384;` -/
def n_fifo : Nat := 16384

/-- Embeds `static constexpr uint32_t n_segs = 8;` -/
def n_segs : Nat := 8

/-- Embeds `static constexpr uint32_t n_pts = n_fifo / n_segs;` -/
def n_pts : Nat := n_fifo / n_segs

/-- Window kinds of `scicpp::signal::windows` used by the drivers. -/
inductive WindowKind where
  | Boxcar
  | Hann
  | Flattop
  | Blackmanharris
deriving DecidableEq

/-- Data members of `class Decimator`, together with the one hardware register
it writes (`reg::cic_rate` of `ps_ctl`) and the two settings of the
`sig::Spectrum<double>` member (`spectrum.fs(..)`, `spectrum.window(..)`). -/
structure State where
  cic_rate : Nat
  fs_adc : ℚ
  fs : ℚ
  fifo_transfer_duration : ℚ
  adc_data : List ℚ
  seg_data : List ℚ
  acquisition_started : Bool
  spectrum_fs : ℚ
  spectrum_window : Option (WindowKind × Nat)
  psd_int : List ℚ
  psd : List ℚ
  reg_cic_rate : Nat
deriving DecidableEq

/-- Embeds `void set_cic_rate(uint32_t rate)` -/
def set_cic_rate (prm : Prm) (s : State) (rate : Nat) : State :=
  if rate < prm.cic_decimation_rate_min ∨ rate > prm.cic_decimation_rate_max then
    s
  else
    let cic_rate := rate
    let fs := s.fs_adc / (2 * (cic_rate : ℚ))
    let fifo_transfer_duration := (n_pts : ℚ) / fs
    { s with
      cic_rate := cic_rate
      fs := fs
      fifo_transfer_duration := fifo_transfer_duration
      spectrum_fs := fs
      reg_cic_rate := cic_rate }

/-- Embeds `auto get_control_parameters()` -/
def get_control_parameters (s : State) : ℚ × ℚ × Nat × Nat :=
  (s.fs, s.fifo_transfer_duration, s.cic_rate, n_pts)

/-- Embeds `auto read_adc() const` -/
def read_adc (s : State) : List ℚ := s.adc_data

/-- Embeds `auto spectral_density() const` -/
def spectral_density (s : State) : List ℚ := s.psd

/-- Embeds `std::vector<double>::resize(n)`: keeps the first `n` elements and pads with
value-initialised (zero) elements. -/
def resize (v : List ℚ) (n : Nat) : List ℚ :=
  v.take n ++ List.replicate (n - v.length) 0

/-- Embeds `void Decimator::start_acquisition()`: the part that runs on the calling
thread (the worker thread itself is `acquisition_iteration` below). -/
def start_acquisition (s : State) : State :=
  if !s.acquisition_started then
    { s with adc_data := List.replicate n_fifo 0 }
  else
    s

/-- State of a `Decimator` object when the constructor body is entered.
Members without an initialiser (`cic_rate`, `fs_adc`, `fs`,
`fifo_transfer_duration`, `adc_data`, `seg_data`) and the register hold
whatever `mem` holds; `acquisition_started{false}`, the two `std::vector`s and
the `Spectrum` are default-constructed. -/
def preconstructed (mem : State) : State :=
  { mem with
    acquisition_started := false
    spectrum_window := none
    psd_int := []
    psd := [] }

/-- Embeds `Decimator(Context& ctx_)`; `fs_read` is the value returned by
`clk_gen.get_adc_sampling_freq()[0]`. -/
def ctor (prm : Prm) (mem : State) (fs_read : ℚ) : State :=
  let s0 := preconstructed mem
  let s1 := { s0 with fs_adc := fs_read }
  let s2 := set_cic_rate prm s1 32
  let s3 := { s2 with psd := resize s2.psd (1 + n_pts / 2) }
  let s4 := { s3 with psd_int := resize s3.psd_int (1 + n_pts / 2) }
  let s5 := { s4 with spectrum_window := some (WindowKind.Hann, n_pts) }
  start_acquisition s5

/-- Embeds `static_cast<int32_t>(x)` of a `uint32_t` value `x`: the same 32 bits read
as a two's-complement number. -/
def to_int32 (x : Nat) : Int :=
  if x % 4294967296 < 2147483648 then ((x % 4294967296 : Nat) : Int)
  else ((x % 4294967296 : Nat) : Int) - 4294967296

/-- Element-wise `a + b` of `scicpp::operators` on two vectors. -/
def vadd (a b : List ℚ) : List ℚ := List.zipWith (fun x y => x + y) a b

/-- Element-wise `a / c` of `scicpp::operators`, vector by scalar. -/
def vdiv (a : List ℚ) (c : ℚ) : List ℚ := a.map (fun x => x / c)

/-- Embeds `sci::zeros<double>(n)` -/
def zeros (n : Nat) : List ℚ := List.replicate n 0

/-- The expression `vrange * static_cast<int32_t>(fifo.read()) / nmax / 4096.0`
with `vrange = 2.048` and `nmax = 262144.0`, for the FIFO word `word`. -/
def sample_value (word : Nat) : ℚ :=
  (2.048 : ℚ) * ((to_int32 word : Int) : ℚ) / 262144 / 4096

/-- Variables live across the `for` loop of `acquisition_thread`. -/
structure LoopState where
  adc_data : List ℚ
  seg_data : List ℚ
  psd_int : List ℚ
  seg_cnt : Nat
deriving DecidableEq

/-- Body of `for (uint32_t i = 0; i < n_fifo; i++)` in `acquisition_thread`.
`periodogram` is `spectrum.periodogram<sig::DENSITY, false>` and `fifo_read i`
is the word returned by the `i`-th call of `fifo.read()` in this iteration. -/
def loop_body (periodogram : List ℚ → List ℚ) (fifo_read : Nat → Nat)
    (st : LoopState) (i : Nat) : LoopState :=
  let value := sample_value (fifo_read i)
  let adc_data := st.adc_data.set i value
  let seg_data := st.seg_data.set st.seg_cnt value
  let seg_cnt := st.seg_cnt + 1
  if seg_cnt = n_pts then
    { adc_data := adc_data
      seg_data := seg_data
      psd_int := vadd st.psd_int (periodogram seg_data)
      seg_cnt := 0 }
  else
    { adc_data := adc_data
      seg_data := seg_data
      psd_int := st.psd_int
      seg_cnt := seg_cnt }

/-- The first part of one pass of `while (acquisition_started) { ... }` in
`Decimator::acquisition_thread`: `psd_int = zeros`, `seg_cnt = 0` and the whole
`for` loop over the `n_fifo` words of the block. -/
def acquisition_loop (periodogram : List ℚ → List ℚ) (fifo_read : Nat → Nat)
    (s : State) : LoopState :=
  (List.range n_fifo).foldl (loop_body periodogram fifo_read)
    { adc_data := s.adc_data
      seg_data := s.seg_data
      psd_int := zeros (1 + n_pts / 2)
      seg_cnt := 0 }

/-- One pass of `while (acquisition_started) { ... }` in
`Decimator::acquisition_thread`, from `psd_int = zeros` to the publication of
`psd` under the mutex. -/
def acquisition_iteration (periodogram : List ℚ → List ℚ) (fifo_read : Nat → Nat)
    (s : State) : State :=
  let st := acquisition_loop periodogram fifo_read s
  { s with
    adc_data := st.adc_data
    seg_data := st.seg_data
    psd_int := st.psd_int
    psd := vdiv st.psd_int (n_segs : ℚ) }

/-- The `k`-th segment of a block in the words of the specification: the `k`-th
consecutive run of `n_pts` scaled samples, `seg_k[j] = v(r_{n_pts * k + j})`. -/
def segment (fifo_read : Nat → Nat) (k : Nat) : List ℚ :=
  (List.range n_pts).map (fun j => sample_value (fifo_read (n_pts * k + j)))

end Decimator

/-! ## FFT -/

/-- The part of the numeric library `scicpp` used by `class FFT`: the four
window generators of `scicpp::signal::windows` (by length) and the two window
sums `win::s1`, `win::s2`. The library is external to the drivers. -/
structure SciCpp where
  boxcar : Nat → List ℚ
  hann : Nat → List ℚ
  flattop : Nat → List ℚ
  blackmanharris : Nat → List ℚ
  s1 : List ℚ → ℚ
  s2 : List ℚ → ℚ

namespace FFT

/-- Modelled from the spec: `set_bit(name, index)` of the hardware register
interface (`Memory::set_bit`, declared in `context.hpp`, absent from the
sources): bit `index` of the register becomes 1, the other bits are kept. -/
def set_bit (reg : Nat) (index : Nat) : Nat :=
  if reg.testBit index then reg else reg + 2 ^ index

/-- Modelled from the spec: `clear_bit(name, index)` of the hardware register
interface (`Memory::clear_bit`, declared in `context.hpp`, absent from the
sources): bit `index` of the register becomes 0, the other bits are kept. -/
def clear_bit (reg : Nat) (index : Nat) : Nat :=
  if reg.testBit index then reg - 2 ^ index else reg

/-- Data members of `class FFT` together with the hardware state it writes:
registers `channel_select`, `channel_offset0`, `channel_offset1` of `ctl`,
register `ctl_fft` of `ps_ctl`, and the coefficient table `demod_map`. -/
structure State where
  channel_select : Nat
  channel_offset0 : Nat
  channel_offset1 : Nat
  ctl_fft : Nat
  demod_map : List Nat
  fs_adc : ℚ
  calibration : ℚ × ℚ
  window : List ℚ
  W1 : ℚ
  W2 : ℚ
  window_index : Nat
  input_channel : Nat
  input_operation : Nat
  psd_buffer : List ℚ
  psd_buffer_raw : List ℚ
  psd_acquisition_started : Bool
  acq_cycle_index : Nat
deriving DecidableEq

/-- Embeds `void set_offsets(uint32_t off0, uint32_t off1)` -/
def set_offsets (s : State) (off0 off1 : Nat) : State :=
  { s with channel_offset0 := off0, channel_offset1 := off1 }

/-- Embeds `void select_adc_channel(uint32_t channel)` -/
def select_adc_channel (s : State) (channel : Nat) : State :=
  if channel = 0 then
    { s with
      channel_select := set_bit (clear_bit s.channel_select 0) 1
      input_channel := channel }
  else if channel = 1 then
    { s with
      channel_select := clear_bit (set_bit s.channel_select 0) 1
      input_channel := channel }
  else if channel = 2 then
    { s with
      channel_select := set_bit (set_bit s.channel_select 0) 1
      input_channel := channel }
  else
    s

/-- Embeds `void set_operation(uint32_t operation)` -/
def set_operation (s : State) (operation : Nat) : State :=
  { s with
    channel_select :=
      if operation = 0 then clear_bit s.channel_select 2 else set_bit s.channel_select 2
    input_operation := operation }

/-- Embeds `void set_scale_sch(uint32_t scale_sch)`; the `uint32_t` arithmetic
wraps modulo `2 ^ 32`. -/
def set_scale_sch (s : State) (scale_sch : Nat) : State :=
  { s with ctl_fft := (1 + (scale_sch * 2) % 4294967296) % 4294967296 }

/-- Conversion `int32_t(x)` of a `double`: truncation toward zero (defined for
values within the `int32_t` range). -/
def trunc (x : ℚ) : Int := if 0 ≤ x then ⌊x⌋ else ⌈x⌉

/-- The lambda of `set_window_buffer`:
`uint32_t(((int32_t(32768 * w) + 32768) % 65536) + 32768)`.
The operator `%` of C++ is the remainder of truncated division (`Int.tmod`);
the conversion to `uint32_t` reduces modulo `2 ^ 32`. -/
def window_code (w : ℚ) : Nat :=
  ((((trunc (32768 * w) + 32768).tmod 65536) + 32768) % 4294967296).toNat

/-- The 16-bit two's-complement representation of an integer, as the unsigned
value of its 16 bits; it exists for the integers from `-32768` to `32767`. -/
def twos_complement16 (t : Int) : Option Nat :=
  if -32768 ≤ t ∧ t ≤ 32767 then
    some (if 0 ≤ t then t.toNat else (t + 65536).toNat)
  else
    none

/-- Embeds `void set_calibs()`; `fs_read` is the value returned by
`clk_gen.get_adc_sampling_freq()[0]`; `2 << 21` is `4194304`. -/
def set_calibs (prm : Prm) (s : State) (fs_read : ℚ) : State :=
  let fs_adc := fs_read
  let vin : ℚ × ℚ := (2.048, 2.048)
  { s with
    fs_adc := fs_adc
    calibration :=
      ((vin.1 / 4194304) * (vin.1 / 4194304) / (prm.n_cycles : ℚ) / fs_adc / s.W2,
       (vin.2 / 4194304) * (vin.2 / 4194304) / (prm.n_cycles : ℚ) / fs_adc / s.W2) }

/-- Embeds `void set_window_buffer()` -/
def set_window_buffer (prm : Prm) (lib : SciCpp) (s : State) (fs_read : ℚ) : State :=
  let s1 := { s with demod_map := s.window.map window_code }
  let s2 := { s1 with W1 := lib.s1 s1.window / (prm.fft_size : ℚ) / (prm.fft_size : ℚ) }
  let s3 := { s2 with W2 := lib.s2 s2.window / (prm.fft_size : ℚ) }
  set_calibs prm s3 fs_read

/-- Embeds `void set_fft_window(uint32_t window_id)`; `fs_read` is what the clock
generator reports during this call. -/
def set_fft_window (prm : Prm) (lib : SciCpp) (s : State) (window_id : Nat)
    (fs_read : ℚ) : State :=
  match window_id with
  | 0 =>
    { set_window_buffer prm lib { s with window := lib.boxcar prm.fft_size } fs_read with
      window_index := window_id }
  | 1 =>
    { set_window_buffer prm lib { s with window := lib.hann prm.fft_size } fs_read with
      window_index := window_id }
  | 2 =>
    { set_window_buffer prm lib { s with window := lib.flattop prm.fft_size } fs_read with
      window_index := window_id }
  | 3 =>
    { set_window_buffer prm lib { s with window := lib.blackmanharris prm.fft_size } fs_read with
      window_index := window_id }
  | _ => s

/-- Embeds `auto read_psd_raw()` -/
def read_psd_raw (s : State) : List ℚ := s.psd_buffer_raw

/-- Embeds `auto read_psd()` -/
def read_psd (s : State) : List ℚ := s.psd_buffer

/-- Embeds `auto get_window_index() const` -/
def get_window_index (s : State) : Nat := s.window_index

/-- Embeds `auto get_control_parameters()` -/
def get_control_parameters (s : State) : ℚ × Nat × Nat × ℚ × ℚ :=
  (s.fs_adc, s.input_channel, s.input_operation, s.W1, s.W2)

/-- Embeds `void FFT::start_psd_acquisition()`: the part that runs on the calling
thread. Only `psd_buffer` is filled; `psd_buffer_raw` is not written. -/
def start_psd_acquisition (prm : Prm) (s : State) : State :=
  if !s.psd_acquisition_started then
    { s with psd_buffer := List.replicate (prm.fft_size / 2) 0 }
  else
    s

/-- State of an `FFT` object when the constructor body is entered. Members
with a default initialiser get it (`input_channel = 0`, `input_operation = 0`,
`psd_acquisition_started{false}`, `acq_cycle_index{0}`); every other member
and the hardware registers hold whatever `mem` holds. -/
def preconstructed (mem : State) : State :=
  { mem with
    input_channel := 0
    input_operation := 0
    psd_acquisition_started := false
    acq_cycle_index := 0 }

/-- Embeds `FFT(Context& ctx_)`; `fs_read` is what the clock generator reports
during the constructor's `set_fft_window(1)`. -/
def ctor (prm : Prm) (lib : SciCpp) (mem : State) (fs_read : ℚ) : State :=
  let s0 := preconstructed mem
  let s1 := set_offsets s0 0 0
  let s2 := select_adc_channel s1 0
  let s3 := set_operation s2 0
  let s4 := set_scale_sch s3 0
  let s5 := set_fft_window prm lib s4 1 fs_read
  start_psd_acquisition prm s5

/-- Element access `calibration[i]` of `std::array<float, 2>`; `none` when the
index is outside the array. -/
def calibration_at (c : ℚ × ℚ) (i : Nat) : Option ℚ :=
  match i with
  | 0 => some c.1
  | 1 => some c.2
  | _ => none

/-- The locked block of `FFT::psd_acquisition_thread` (the publication of one
cycle) followed by `acq_cycle_index = get_cycle_index()`. `hw_psd` is the array
returned by `psd_map.read_array<float, prm::fft_size/2, 0>()` and `cycle_read`
the register value read afterwards. The result is `none` when the lookup
`calibration[input_channel]` is outside the array. -/
def publish_cycle (s : State) (hw_psd : List ℚ) (cycle_read : Nat) : Option State :=
  match calibration_at s.calibration s.input_channel with
  | none => none
  | some c =>
    some { s with
      psd_buffer_raw := hw_psd
      psd_buffer := hw_psd.map (fun x => x * c)
      acq_cycle_index := cycle_read }

/-- A call of one of the public configuration setters of `class FFT`. -/
inductive Call where
  | set_offsets (off0 off1 : Nat)
  | select_adc_channel (channel : Nat)
  | set_operation (operation : Nat)
  | set_scale_sch (scale_sch : Nat)
  | set_fft_window (window_id : Nat) (fs_read : ℚ)
deriving DecidableEq

/-- Effect of one setter call on the state. -/
def apply_call (prm : Prm) (lib : SciCpp) (s : State) : Call → State
  | Call.set_offsets off0 off1 => set_offsets s off0 off1
  | Call.select_adc_channel channel => select_adc_channel s channel
  | Call.set_operation operation => set_operation s operation
  | Call.set_scale_sch scale_sch => set_scale_sch s scale_sch
  | Call.set_fft_window window_id fs_read => set_fft_window prm lib s window_id fs_read

/-- Effect of a sequence of setter calls, first call first. -/
def run_calls (prm : Prm) (lib : SciCpp) (s : State) (calls : List Call) : State :=
  calls.foldl (apply_call prm lib) s

/-- The canonical window of an index in the words of the specification:
0 rectangular, 1 Hann, 2 flat-top, 3 Blackman-Harris, of the transform length;
no window for any other index. -/
def canonical (prm : Prm) (lib : SciCpp) (window_index : Nat) : Option (List ℚ) :=
  if window_index = 0 then some (lib.boxcar prm.fft_size)
  else if window_index = 1 then some (lib.hann prm.fft_size)
  else if window_index = 2 then some (lib.flattop prm.fft_size)
  else if window_index = 3 then some (lib.blackmanharris prm.fft_size)
  else none

/-- The window-consistency property of the specification: every derived
quantity of the state belongs to the canonical window of `window_index`. -/
def WindowConsistent (prm : Prm) (lib : SciCpp) (s : State) : Prop :=
  canonical prm lib s.window_index = some s.window ∧
  s.W1 = lib.s1 s.window / (prm.fft_size : ℚ) ^ 2 ∧
  s.W2 = lib.s2 s.window / (prm.fft_size : ℚ) ∧
  s.calibration.1 = ((2.048 : ℚ) / 2 ^ 22) ^ 2 / (prm.n_cycles : ℚ) / s.fs_adc / s.W2 ∧
  s.calibration.2 = ((2.048 : ℚ) / 2 ^ 22) ^ 2 / (prm.n_cycles : ℚ) / s.fs_adc / s.W2 ∧
  s.demod_map = s.window.map window_code

end FFT

/-! ## Concrete inputs -/

/-- A parameter set for evaluating the model: transform length 8, 4 averaging
cycles, decimation rates from 10 to 8192. -/
def sample_prm : Prm :=
  { fft_size := 8
    n_cycles := 4
    cic_decimation_rate_min := 10
    cic_decimation_rate_max := 8192 }

/-- An instance of the external library interface for evaluating the model:
all-ones boxcar, rational stand-ins for the three cosine windows, `s1` the sum
of the coefficients and `s2` the sum of their squares. -/
def sample_lib : SciCpp :=
  { boxcar := fun n => List.replicate n 1
    hann := fun n => (List.range n).map (fun i => (i : ℚ) / (n : ℚ))
    flattop := fun n => (List.range n).map (fun i => (i : ℚ) / (2 * (n : ℚ)))
    blackmanharris := fun n => (List.range n).map (fun i => (i : ℚ) / (4 * (n : ℚ)))
    s1 := fun w => w.sum
    s2 := fun w => (w.map (fun x => x * x)).sum }

/-- Memory content found by the `FFT` constructor: registers at zero, and
arbitrary (here non-zero) values in the storage of the uninitialised members. -/
def sample_fft_mem : FFT.State :=
  { channel_select := 0
    channel_offset0 := 0
    channel_offset1 := 0
    ctl_fft := 0
    demod_map := []
    fs_adc := 5
    calibration := (9, 9)
    window := []
    W1 := 7
    W2 := 7
    window_index := 6
    input_channel := 3
    input_operation := 3
    psd_buffer := [2, 7, 1, 8]
    psd_buffer_raw := [3, 1, 4, 1]
    psd_acquisition_started := true
    acq_cycle_index := 11 }

/-- Memory content found by the `Decimator` constructor. -/
def sample_dec_mem : Decimator.State :=
  { cic_rate := 0
    fs_adc := 0
    fs := 0
    fifo_transfer_duration := 0
    adc_data := List.replicate Decimator.n_fifo 1
    seg_data := List.replicate Decimator.n_pts 1
    acquisition_started := true
    spectrum_fs := 0
    spectrum_window := none
    psd_int := [1]
    psd := [1]
    reg_cic_rate := 0 }

/-- A freshly constructed `Decimator` with a 15 MHz sampling clock. -/
def sample_dec : Decimator.State := Decimator.ctor sample_prm sample_dec_mem 15000000

/-- A freshly constructed `FFT` with a 15 MHz sampling clock. -/
def sample_fft : FFT.State := FFT.ctor sample_prm sample_lib sample_fft_mem 15000000

/-- A periodogram stand-in of the right output length for evaluating the
acquisition loop: every bin holds the sum of the segment. -/
def sample_periodogram (seg : List ℚ) : List ℚ :=
  List.replicate (1 + Decimator.n_pts / 2) seg.sum

/-! ## Decimator: rate setter -/

namespace Decimator

/-- C1: for every state and every rate below `cic_decimation_rate_min` or above
`cic_decimation_rate_max`, `set_cic_rate` leaves `cic_rate`, `fs`,
`fifo_transfer_duration`, the spectrum's sampling frequency and the `cic_rate`
register as they were; in fact the whole state is unchanged. -/
theorem C1_set_cic_rate_out_of_range (prm : Prm) (s : State) (rate : Nat)
    (h : rate < prm.cic_decimation_rate_min ∨ rate > prm.cic_decimation_rate_max) :
    (set_cic_rate prm s rate).cic_rate = s.cic_rate ∧
    (set_cic_rate prm s rate).fs = s.fs ∧
    (set_cic_rate prm s rate).fifo_transfer_duration = s.fifo_transfer_duration ∧
    (set_cic_rate prm s rate).spectrum_fs = s.spectrum_fs ∧
    (set_cic_rate prm s rate).reg_cic_rate = s.reg_cic_rate ∧
    set_cic_rate prm s rate = s := by
  have hs : set_cic_rate prm s rate = s := by
    unfold set_cic_rate
    rw [if_pos h]
  rw [hs]
  exact ⟨rfl, rfl, rfl, rfl, rfl, rfl⟩

/-- Witness of C1: rate 5 is below the minimum 10 of `sample_prm`. -/
theorem C1_set_cic_rate_out_of_range_witness :
    (5 < sample_prm.cic_decimation_rate_min ∨ 5 > sample_prm.cic_decimation_rate_max) ∧
    set_cic_rate sample_prm sample_dec 5 = sample_dec :=
  ⟨by decide,
   (C1_set_cic_rate_out_of_range sample_prm sample_dec 5 (by decide)).2.2.2.2.2⟩

/-- C5: for every rate with `cic_decimation_rate_min ≤ rate ≤
cic_decimation_rate_max` and `rate > 0`, after `set_cic_rate` the stored rate is
`rate`, `fs = fs_adc / (2 * rate)`, `fifo_transfer_duration = n_pts / fs =
2 * rate * n_pts / fs_adc` with `n_pts = 2048`, the spectrum's sampling
frequency is the same `fs`, and the `cic_rate` register holds `rate`. -/
theorem C5_set_cic_rate_in_range (prm : Prm) (s : State) (rate : Nat)
    (hmin : prm.cic_decimation_rate_min ≤ rate)
    (hmax : rate ≤ prm.cic_decimation_rate_max)
    (hpos : 0 < rate) :
    (set_cic_rate prm s rate).cic_rate = rate ∧
    (set_cic_rate prm s rate).fs = s.fs_adc / (2 * (rate : ℚ)) ∧
    (set_cic_rate prm s rate).fifo_transfer_duration
      = (n_pts : ℚ) / (set_cic_rate prm s rate).fs ∧
    (set_cic_rate prm s rate).fifo_transfer_duration
      = 2 * (rate : ℚ) * (n_pts : ℚ) / s.fs_adc ∧
    n_pts = 2048 ∧
    (set_cic_rate prm s rate).spectrum_fs = (set_cic_rate prm s rate).fs ∧
    (set_cic_rate prm s rate).reg_cic_rate = rate := by
  have hcond : ¬ (rate < prm.cic_decimation_rate_min ∨ rate > prm.cic_decimation_rate_max) := by
    omega
  have hr : (rate : ℚ) ≠ 0 := by
    have : (0 : ℚ) < (rate : ℚ) := by exact_mod_cast hpos
    exact ne_of_gt this
  unfold set_cic_rate
  rw [if_neg hcond]
  refine ⟨rfl, rfl, rfl, ?_, by decide, rfl, rfl⟩
  show (n_pts : ℚ) / (s.fs_adc / (2 * (rate : ℚ))) = 2 * (rate : ℚ) * (n_pts : ℚ) / s.fs_adc
  rw [div_div_eq_mul_div]
  ring

/-- Witness of C5: rate 32 lies within the bounds 10 and 8192 of `sample_prm`. -/
theorem C5_set_cic_rate_in_range_witness :
    (set_cic_rate sample_prm sample_dec 32).cic_rate = 32 ∧
    (set_cic_rate sample_prm sample_dec 32).fs = sample_dec.fs_adc / (2 * ((32 : Nat) : ℚ)) ∧
    (set_cic_rate sample_prm sample_dec 32).fifo_transfer_duration
      = (n_pts : ℚ) / (set_cic_rate sample_prm sample_dec 32).fs ∧
    (set_cic_rate sample_prm sample_dec 32).fifo_transfer_duration
      = 2 * ((32 : Nat) : ℚ) * (n_pts : ℚ) / sample_dec.fs_adc ∧
    n_pts = 2048 ∧
    (set_cic_rate sample_prm sample_dec 32).spectrum_fs
      = (set_cic_rate sample_prm sample_dec 32).fs ∧
    (set_cic_rate sample_prm sample_dec 32).reg_cic_rate = 32 :=
  C5_set_cic_rate_in_range sample_prm sample_dec 32 (by decide) (by decide) (by decide)

/-! ## Decimator: block-segmented averaging -/

theorem vadd_length (a b : List ℚ) (h : a.length = b.length) :
    (vadd a b).length = a.length := by
  simp [vadd, h]

theorem vadd_getD (a b : List ℚ) (j : Nat) (h : a.length = b.length) :
    (vadd a b).getD j 0 = a.getD j 0 + b.getD j 0 := by
  induction a generalizing b j with
  | nil =>
    cases b with
    | nil => simp [vadd]
    | cons y ys => simp at h
  | cons x xs ih =>
    cases b with
    | nil => simp at h
    | cons y ys =>
      cases j with
      | zero => simp [vadd]
      | succ j =>
        have hl : xs.length = ys.length := by simpa using h
        simpa [vadd] using ih ys j hl

theorem set_at_fill_position (pre sd : List ℚ) (k : Nat) (x : ℚ)
    (hpre : pre.length = k) (hk : k < sd.length) :
    (pre ++ sd.drop k).set k x = (pre ++ [x]) ++ sd.drop (k + 1) := by
  subst hpre
  rw [List.set_append_right _ _ (Nat.le_refl _), Nat.sub_self, List.drop_eq_getElem_cons hk,
    List.set_cons_zero]
  simp

/-- While a segment is being filled (fewer than `n_pts` samples so far) the
loop only stores samples: `seg_cnt` counts them, `seg_data` holds them in
order and `psd_int` is untouched. -/
theorem loop_filling (P : List ℚ → List ℚ) (r : Nat → Nat) (base : Nat) (st : LoopState)
    (h0 : st.seg_cnt = 0) (hlen : st.seg_data.length = n_pts) (k : Nat) (hk : k < n_pts) :
    ((List.range' base k).foldl (loop_body P r) st).seg_cnt = k ∧
    ((List.range' base k).foldl (loop_body P r) st).seg_data
      = (List.range' base k).map (fun i => sample_value (r i)) ++ st.seg_data.drop k ∧
    ((List.range' base k).foldl (loop_body P r) st).psd_int = st.psd_int := by
  induction k with
  | zero => simp [h0]
  | succ k ih =>
    obtain ⟨hc, hs, hp⟩ := ih (by omega)
    rw [List.range'_concat, List.foldl_append]
    simp only [List.foldl_cons, List.foldl_nil, Nat.one_mul]
    have hne : ¬ (k + 1 = n_pts) := by omega
    have hset := set_at_fill_position ((List.range' base k).map (fun i => sample_value (r i)))
      st.seg_data k (sample_value (r (base + k))) (by simp) (by omega)
    refine ⟨?_, ?_, ?_⟩
    · simp [loop_body, hc, hne]
    · simp only [loop_body, hc, hne, if_false, hs, hset]
      simp
    · simp [loop_body, hc, hne, hp]

/-- The run of samples read at positions `n_pts * k .. n_pts * k + n_pts - 1`
is the `k`-th segment. -/
theorem map_range'_eq_segment (r : Nat → Nat) (k : Nat) :
    (List.range' (k * n_pts) n_pts).map (fun i => sample_value (r i)) = segment r k := by
  rw [List.range'_eq_map_range, List.map_map, Nat.mul_comm]
  rfl

/-- The loop body on the sample that completes a segment. -/
theorem loop_body_full (P : List ℚ → List ℚ) (r : Nat → Nat) (st : LoopState) (i : Nat)
    (h : st.seg_cnt + 1 = n_pts) :
    loop_body P r st i =
      { adc_data := st.adc_data.set i (sample_value (r i))
        seg_data := st.seg_data.set st.seg_cnt (sample_value (r i))
        psd_int := vadd st.psd_int (P (st.seg_data.set st.seg_cnt (sample_value (r i))))
        seg_cnt := 0 } := by
  unfold loop_body
  simp only [h, if_true]

/-- Processing one full segment starting with an empty segment buffer: the
buffer ends up holding exactly the `n_pts` samples read, and exactly one
periodogram, of that buffer, is added to `psd_int`. -/
theorem loop_segment (P : List ℚ → List ℚ) (r : Nat → Nat) (base : Nat) (st : LoopState)
    (h0 : st.seg_cnt = 0) (hlen : st.seg_data.length = n_pts) :
    ((List.range' base n_pts).foldl (loop_body P r) st).seg_cnt = 0 ∧
    ((List.range' base n_pts).foldl (loop_body P r) st).seg_data
      = (List.range' base n_pts).map (fun i => sample_value (r i)) ∧
    ((List.range' base n_pts).foldl (loop_body P r) st).psd_int
      = vadd st.psd_int (P ((List.range' base n_pts).map (fun i => sample_value (r i)))) := by
  have hpos : 0 < n_pts := by decide
  obtain ⟨m, hm⟩ : ∃ m, n_pts = m + 1 := ⟨n_pts - 1, by omega⟩
  obtain ⟨hc, hs, hp⟩ := loop_filling P r base st h0 hlen m (by omega)
  have hset := set_at_fill_position ((List.range' base m).map (fun i => sample_value (r i)))
    st.seg_data m (sample_value (r (base + m))) (by simp) (by omega)
  have hdrop : st.seg_data.drop (m + 1) = [] := by
    apply List.drop_eq_nil_of_le
    omega
  have hseg : ((List.range' base m).foldl (loop_body P r) st).seg_data.set m
      (sample_value (r (base + m)))
      = (List.range' base (m + 1)).map (fun i => sample_value (r i)) := by
    rw [hs, hset, hdrop, List.range'_concat]
    simp
  have hstep : (List.range' base n_pts).foldl (loop_body P r) st
      = loop_body P r ((List.range' base m).foldl (loop_body P r) st) (base + m) := by
    rw [hm, List.range'_concat, List.foldl_append]
    simp
  have hfull : ((List.range' base m).foldl (loop_body P r) st).seg_cnt + 1 = n_pts := by
    rw [hc, hm]
  rw [hstep, loop_body_full P r _ _ hfull]
  dsimp only
  rw [hc, hseg, hp, ← hm]
  exact ⟨rfl, rfl, rfl⟩

/-- Processing `m` full segments: `m` periodograms, those of segments
`0 .. m - 1`, have been added to `psd_int`, bin by bin. -/
theorem loop_segments (P : List ℚ → List ℚ) (r : Nat → Nat) (st : LoopState) (L : Nat)
    (h0 : st.seg_cnt = 0) (hlen : st.seg_data.length = n_pts)
    (hL : st.psd_int.length = L)
    (hP : ∀ seg : List ℚ, seg.length = n_pts → (P seg).length = L) (m : Nat) :
    ((List.range' 0 (m * n_pts)).foldl (loop_body P r) st).seg_cnt = 0 ∧
    ((List.range' 0 (m * n_pts)).foldl (loop_body P r) st).seg_data.length = n_pts ∧
    ((List.range' 0 (m * n_pts)).foldl (loop_body P r) st).psd_int.length = L ∧
    ∀ j : Nat, ((List.range' 0 (m * n_pts)).foldl (loop_body P r) st).psd_int.getD j 0
      = st.psd_int.getD j 0 + ∑ k ∈ Finset.range m, (P (segment r k)).getD j 0 := by
  induction m with
  | zero => simp [h0, hlen, hL]
  | succ m ih =>
    obtain ⟨hc, hl, hpl, hsum⟩ := ih
    have hsplit : List.range' 0 ((m + 1) * n_pts)
        = List.range' 0 (m * n_pts) ++ List.range' (m * n_pts) n_pts := by
      rw [Nat.succ_mul, Nat.add_comm (m * n_pts) n_pts, ← List.range'_append_1, Nat.zero_add]
    rw [hsplit, List.foldl_append]
    obtain ⟨hc2, hs2, hp2⟩ :=
      loop_segment P r (m * n_pts) ((List.range' 0 (m * n_pts)).foldl (loop_body P r) st) hc hl
    rw [map_range'_eq_segment] at hs2 hp2
    have hseglen : (segment r m).length = n_pts := by simp [segment]
    have hPl := hP (segment r m) hseglen
    refine ⟨hc2, ?_, ?_, ?_⟩
    · rw [hs2, hseglen]
    · rw [hp2, vadd_length _ _ (by rw [hpl, hPl]), hpl]
    · intro j
      rw [hp2, vadd_getD _ _ j (by rw [hpl, hPl]), hsum j, Finset.sum_range_succ]
      ring

/-- The segments `0 .. m - 1`, one after the other, are the first `m * n_pts`
scaled samples in their original order. -/
theorem segments_flatten (r : Nat → Nat) (m : Nat) :
    ((List.range m).map (segment r)).flatten
      = (List.range (m * n_pts)).map (fun i => sample_value (r i)) := by
  induction m with
  | zero => simp
  | succ m ih =>
    have hsplit : List.range ((m + 1) * n_pts)
        = List.range (m * n_pts) ++ List.range' (m * n_pts) n_pts := by
      rw [List.range_eq_range', List.range_eq_range', Nat.succ_mul,
        Nat.add_comm (m * n_pts) n_pts, ← List.range'_append_1, Nat.zero_add]
    rw [List.range_succ, List.map_append, List.flatten_append, ih, hsplit, List.map_append,
      map_range'_eq_segment]
    simp

theorem spectral_density_eq (s : State) : spectral_density s = s.psd := rfl

theorem vdiv_getD (a : List ℚ) (c : ℚ) (j : Nat) :
    (vdiv a c).getD j 0 = a.getD j 0 / c := by
  unfold vdiv
  rw [List.getD_eq_getElem?_getD, List.getD_eq_getElem?_getD, List.getElem?_map]
  cases a[j]? <;> simp

theorem zeros_getD (n j : Nat) : (zeros n).getD j 0 = 0 := by
  unfold zeros
  rw [List.getD_eq_getElem?_getD, List.getElem?_replicate]
  split <;> rfl

theorem segment_getD (r : Nat → Nat) (k j : Nat) (hj : j < n_pts) :
    (segment r k).getD j 0 = sample_value (r (n_pts * k + j)) := by
  unfold segment
  rw [List.getD_eq_getElem?_getD, List.getElem?_map, List.getElem?_range hj]
  rfl

/-- A word below `2 ^ 31` is read as itself by `static_cast<int32_t>`. -/
theorem to_int32_of_lt (x : Nat) (h : x < 2147483648) : to_int32 x = (x : Int) := by
  unfold to_int32
  have hmod : x % 4294967296 = x := Nat.mod_eq_of_lt (by omega)
  rw [hmod, if_pos h]

/-- A word from `2 ^ 31` up to `2 ^ 32 - 1` is read as the negative number
`x - 2 ^ 32` by `static_cast<int32_t>`. -/
theorem to_int32_of_ge (x : Nat) (h1 : 2147483648 ≤ x) (h2 : x < 4294967296) :
    to_int32 x = (x : Int) - 4294967296 := by
  unfold to_int32
  have hmod : x % 4294967296 = x := Nat.mod_eq_of_lt h2
  rw [hmod, if_neg (by omega)]

/-- C6: one pass of the acquisition loop over a block of `n_fifo = 16384` FIFO
words `r 0 .. r 16383`, with any periodogram function `P` (returning
`1 + n_pts / 2` bins for a segment of `n_pts` samples), publishes
`psd = (P(seg_0) + ... + P(seg_7)) / 8` bin by bin, where `seg_k` is the `k`-th
consecutive run of `n_pts = 2048` scaled samples,
`seg_k[j] = v(r (2048 * k + j))`, `v(x) = 2.048 * int32(x) / 2^18 / 4096`,
where `int32(x)` is the word read as a signed 32-bit number: `x` itself below
`2^31` and the negative number `x - 2^32` from `2^31` up to `2^32 - 1`.
The eight segments, one after the other, are exactly the block in its original
order (each sample in exactly one segment, none left over), and
`n_pts * n_segs = n_fifo`. -/
theorem C6_block_segmented_average (P : List ℚ → List ℚ) (r : Nat → Nat) (s : State)
    (hseg : s.seg_data.length = n_pts)
    (hP : ∀ seg : List ℚ, seg.length = n_pts → (P seg).length = 1 + n_pts / 2) :
    (spectral_density (acquisition_iteration P r s)).length = 1 + n_pts / 2 ∧
    (∀ j : Nat, j < 1 + n_pts / 2 →
      (spectral_density (acquisition_iteration P r s)).getD j 0
        = (∑ k ∈ Finset.range 8, (P (segment r k)).getD j 0) / 8) ∧
    (∀ k j : Nat, j < 2048 →
      (segment r k).getD j 0
        = (2.048 : ℚ) * ((to_int32 (r (2048 * k + j)) : Int) : ℚ) / 2 ^ 18 / 4096) ∧
    (∀ x : Nat, x < 2147483648 → to_int32 x = (x : Int)) ∧
    (∀ x : Nat, 2147483648 ≤ x → x < 4294967296 → to_int32 x = (x : Int) - 4294967296) ∧
    (∀ k j : Nat, j < 2048 → r (2048 * k + j) < 2147483648 →
      (segment r k).getD j 0
        = (2.048 : ℚ) * ((r (2048 * k + j) : Nat) : ℚ) / 2 ^ 18 / 4096) ∧
    (∀ k j : Nat, j < 2048 → 2147483648 ≤ r (2048 * k + j) → r (2048 * k + j) < 4294967296 →
      (segment r k).getD j 0
        = (2.048 : ℚ) * (((r (2048 * k + j) : Nat) : ℚ) - 4294967296) / 2 ^ 18 / 4096) ∧
    (∀ k : Nat, (segment r k).length = 2048) ∧
    ((List.range 8).map (segment r)).flatten
      = (List.range 16384).map (fun i => sample_value (r i)) ∧
    n_pts * n_segs = n_fifo ∧ n_fifo = 16384 ∧ n_segs = 8 ∧ n_pts = 2048 := by
  have hn : n_fifo = 8 * n_pts := by decide
  have hfifo : List.range n_fifo = List.range' 0 (8 * n_pts) := by
    rw [List.range_eq_range', hn]
  have hsegs : ((n_segs : Nat) : ℚ) = 8 := by norm_num [n_segs]
  have key := loop_segments P r
    { adc_data := s.adc_data
      seg_data := s.seg_data
      psd_int := zeros (1 + n_pts / 2)
      seg_cnt := 0 }
    (1 + n_pts / 2) rfl hseg (by simp [zeros]) hP 8
  obtain ⟨_, _, hlen, hsum⟩ := key
  have hpts : n_pts = 2048 := by decide
  have hpsd : spectral_density (acquisition_iteration P r s)
      = vdiv (acquisition_loop P r s).psd_int (n_segs : ℚ) := by
    rw [spectral_density_eq, acquisition_iteration]
  have hval : ∀ k j : Nat, j < 2048 →
      (segment r k).getD j 0
        = (2.048 : ℚ) * ((to_int32 (r (2048 * k + j)) : Int) : ℚ) / 2 ^ 18 / 4096 := by
    intro k j hj
    rw [segment_getD r k j (by rw [hpts]; exact hj), hpts]
    unfold sample_value
    norm_num
  refine ⟨?_, ?_, hval, to_int32_of_lt, to_int32_of_ge, ?_, ?_, ?_, ?_,
    by decide, by decide, by decide, hpts⟩
  · rw [hpsd]
    unfold vdiv acquisition_loop
    rw [List.length_map, hfifo]
    exact hlen
  · intro j _
    rw [hpsd, vdiv_getD]
    unfold acquisition_loop
    rw [hfifo, hsum j, zeros_getD, zero_add, hsegs]
  · intro k j hj hlt
    rw [hval k j hj, to_int32_of_lt _ hlt]
    push_cast
    rfl
  · intro k j hj hge hlt
    rw [hval k j hj, to_int32_of_ge _ hge hlt]
    push_cast
    rfl
  · intro k
    simp [segment, hpts]
  · have h := segments_flatten r 8
    rw [hpts] at h
    exact h

/-- Witness of C6: the block whose even-numbered words are `2^32 - 1 - i`
(negative samples) and whose odd-numbered words are `i` (positive samples), the
periodogram stand-in `sample_periodogram`, and a freshly constructed decimator.
The first sample of segment 0 is the word `2^32 - 1`, read as `-1`; the second
is the word `1`, read as `1`. -/
theorem C6_block_segmented_average_witness :
    (spectral_density
      (acquisition_iteration sample_periodogram
        (fun i => if i % 2 = 0 then 4294967295 - i else i) sample_dec)).length
      = 1 + n_pts / 2 ∧
    (∀ j : Nat, j < 1 + n_pts / 2 →
      (spectral_density
        (acquisition_iteration sample_periodogram
          (fun i => if i % 2 = 0 then 4294967295 - i else i) sample_dec)).getD j 0
        = (∑ k ∈ Finset.range 8,
            (sample_periodogram
              (segment (fun i => if i % 2 = 0 then 4294967295 - i else i) k)).getD j 0) / 8) ∧
    (segment (fun i => if i % 2 = 0 then 4294967295 - i else i) 0).getD 0 0
      = (2.048 : ℚ) * (-1) / 2 ^ 18 / 4096 ∧
    (segment (fun i => if i % 2 = 0 then 4294967295 - i else i) 0).getD 1 0
      = (2.048 : ℚ) * 1 / 2 ^ 18 / 4096 ∧
    to_int32 4294967295 = -1 ∧
    to_int32 1 = 1 :=
  have h := C6_block_segmented_average sample_periodogram
    (fun i => if i % 2 = 0 then 4294967295 - i else i) sample_dec
    (by simp [sample_dec, ctor, start_acquisition, set_cic_rate, preconstructed,
      sample_dec_mem, sample_prm])
    (by intro seg _; simp [sample_periodogram])
  have hneg := h.2.2.2.2.2.2.1 0 0 (by decide) (by decide) (by decide)
  have hpos := h.2.2.2.2.2.1 0 1 (by decide) (by decide)
  ⟨h.1, h.2.1, by rw [hneg]; norm_num,
    by rw [hpos]; norm_num,
    by rw [h.2.2.2.2.1 4294967295 (by decide) (by decide)]; decide,
    by rw [h.2.2.2.1 1 (by decide)]; decide⟩

end Decimator

/-! ## FFT: window selection -/

namespace FFT

/-- C3: for every state and every `window_id` outside `{0, 1, 2, 3}`,
`set_fft_window` leaves the window coefficients, `W1`, `W2`, `window_index`,
both calibration scalars, `fs_adc` and the hardware coefficient table
unchanged; in fact the whole state is unchanged. -/
theorem C3_set_fft_window_invalid_id (prm : Prm) (lib : SciCpp) (s : State)
    (window_id : Nat) (fs_read : ℚ)
    (h : window_id ≠ 0 ∧ window_id ≠ 1 ∧ window_id ≠ 2 ∧ window_id ≠ 3) :
    (set_fft_window prm lib s window_id fs_read).window = s.window ∧
    (set_fft_window prm lib s window_id fs_read).W1 = s.W1 ∧
    (set_fft_window prm lib s window_id fs_read).W2 = s.W2 ∧
    (set_fft_window prm lib s window_id fs_read).window_index = s.window_index ∧
    (set_fft_window prm lib s window_id fs_read).calibration = s.calibration ∧
    (set_fft_window prm lib s window_id fs_read).fs_adc = s.fs_adc ∧
    (set_fft_window prm lib s window_id fs_read).demod_map = s.demod_map ∧
    set_fft_window prm lib s window_id fs_read = s := by
  obtain ⟨h0, h1, h2, h3⟩ := h
  have hs : set_fft_window prm lib s window_id fs_read = s := by
    match window_id, h0, h1, h2, h3 with
    | 0, h0, _, _, _ => exact absurd rfl h0
    | 1, _, h1, _, _ => exact absurd rfl h1
    | 2, _, _, h2, _ => exact absurd rfl h2
    | 3, _, _, _, h3 => exact absurd rfl h3
    | n + 4, _, _, _, _ => rfl
  rw [hs]
  exact ⟨rfl, rfl, rfl, rfl, rfl, rfl, rfl, rfl⟩

/-- Witness of C3: window id 4 on a freshly constructed `FFT`. -/
theorem C3_set_fft_window_invalid_id_witness :
    ((4 : Nat) ≠ 0 ∧ (4 : Nat) ≠ 1 ∧ (4 : Nat) ≠ 2 ∧ (4 : Nat) ≠ 3) ∧
    set_fft_window sample_prm sample_lib sample_fft 4 10000000 = sample_fft :=
  ⟨by decide,
   (C3_set_fft_window_invalid_id sample_prm sample_lib sample_fft 4 10000000
      (by decide)).2.2.2.2.2.2.2⟩

/-- After `set_window_buffer` the derived quantities belong to the window
stored in the state. -/
theorem set_window_buffer_spec (prm : Prm) (lib : SciCpp) (s : State) (fs_read : ℚ) :
    (set_window_buffer prm lib s fs_read).window = s.window ∧
    (set_window_buffer prm lib s fs_read).W1 = lib.s1 s.window / (prm.fft_size : ℚ) ^ 2 ∧
    (set_window_buffer prm lib s fs_read).W2 = lib.s2 s.window / (prm.fft_size : ℚ) ∧
    (set_window_buffer prm lib s fs_read).fs_adc = fs_read ∧
    (set_window_buffer prm lib s fs_read).calibration.1
      = ((2.048 : ℚ) / 2 ^ 22) ^ 2 / (prm.n_cycles : ℚ) / fs_read
          / (lib.s2 s.window / (prm.fft_size : ℚ)) ∧
    (set_window_buffer prm lib s fs_read).calibration.2
      = ((2.048 : ℚ) / 2 ^ 22) ^ 2 / (prm.n_cycles : ℚ) / fs_read
          / (lib.s2 s.window / (prm.fft_size : ℚ)) ∧
    (set_window_buffer prm lib s fs_read).demod_map = s.window.map window_code := by
  have hsq : ∀ v : ℚ, (v / 4194304) * (v / 4194304) = (v / 2 ^ 22) ^ 2 := by
    intro v
    norm_num
    ring
  refine ⟨rfl, ?_, rfl, rfl, ?_, ?_, rfl⟩
  · show lib.s1 s.window / (prm.fft_size : ℚ) / (prm.fft_size : ℚ) = _
    rw [div_div, sq]
  · show ((2.048 : ℚ) / 4194304) * ((2.048 : ℚ) / 4194304) / (prm.n_cycles : ℚ) / fs_read
      / (lib.s2 s.window / (prm.fft_size : ℚ)) = _
    rw [hsq]
  · show ((2.048 : ℚ) / 4194304) * ((2.048 : ℚ) / 4194304) / (prm.n_cycles : ℚ) / fs_read
      / (lib.s2 s.window / (prm.fft_size : ℚ)) = _
    rw [hsq]

/-- Any window stored together with its index gives a consistent state once
`set_window_buffer` has run. -/
theorem consistent_of_set_window_buffer (prm : Prm) (lib : SciCpp) (s : State)
    (fs_read : ℚ) (idx : Nat) (w : List ℚ) (hw : canonical prm lib idx = some w) :
    WindowConsistent prm lib
      { set_window_buffer prm lib { s with window := w } fs_read with window_index := idx } := by
  obtain ⟨h1, h2, h3, h4, h5, h6, h7⟩ :=
    set_window_buffer_spec prm lib { s with window := w } fs_read
  unfold WindowConsistent
  refine ⟨?_, ?_, ?_, ?_, ?_, ?_⟩
  · show canonical prm lib idx = some (set_window_buffer prm lib { s with window := w } fs_read).window
    rw [h1]
    exact hw
  · show (set_window_buffer prm lib { s with window := w } fs_read).W1
      = lib.s1 (set_window_buffer prm lib { s with window := w } fs_read).window / _
    rw [h1, h2]
  · show (set_window_buffer prm lib { s with window := w } fs_read).W2
      = lib.s2 (set_window_buffer prm lib { s with window := w } fs_read).window / _
    rw [h1, h3]
  · show (set_window_buffer prm lib { s with window := w } fs_read).calibration.1
      = _ / (set_window_buffer prm lib { s with window := w } fs_read).fs_adc
          / (set_window_buffer prm lib { s with window := w } fs_read).W2
    rw [h3, h4, h5]
  · show (set_window_buffer prm lib { s with window := w } fs_read).calibration.2
      = _ / (set_window_buffer prm lib { s with window := w } fs_read).fs_adc
          / (set_window_buffer prm lib { s with window := w } fs_read).W2
    rw [h3, h4, h6]
  · show (set_window_buffer prm lib { s with window := w } fs_read).demod_map
      = (set_window_buffer prm lib { s with window := w } fs_read).window.map window_code
    rw [h1, h7]

/-- A call of `set_fft_window` with a valid id makes the state consistent,
whatever it was before. -/
theorem set_fft_window_valid_consistent (prm : Prm) (lib : SciCpp) (s : State)
    (window_id : Nat) (fs_read : ℚ) (h : window_id < 4) :
    WindowConsistent prm lib (set_fft_window prm lib s window_id fs_read) := by
  match window_id, h with
  | 0, _ => exact consistent_of_set_window_buffer prm lib s fs_read 0 _ rfl
  | 1, _ => exact consistent_of_set_window_buffer prm lib s fs_read 1 _ rfl
  | 2, _ => exact consistent_of_set_window_buffer prm lib s fs_read 2 _ rfl
  | 3, _ => exact consistent_of_set_window_buffer prm lib s fs_read 3 _ rfl
  | n + 4, h => omega

/-- Every call of `set_fft_window` keeps a consistent state consistent. -/
theorem set_fft_window_preserves (prm : Prm) (lib : SciCpp) (s : State)
    (window_id : Nat) (fs_read : ℚ) (hs : WindowConsistent prm lib s) :
    WindowConsistent prm lib (set_fft_window prm lib s window_id fs_read) := by
  by_cases h : window_id < 4
  · exact set_fft_window_valid_consistent prm lib s window_id fs_read h
  · have hid : set_fft_window prm lib s window_id fs_read = s := by
      match window_id, h with
      | 0, h => omega
      | 1, h => omega
      | 2, h => omega
      | 3, h => omega
      | n + 4, _ => rfl
    rw [hid]
    exact hs

/-- Consistency only looks at the window-related part of the state. -/
theorem consistent_of_same_window_part (prm : Prm) (lib : SciCpp) (s t : State)
    (h1 : t.window_index = s.window_index) (h2 : t.window = s.window)
    (h3 : t.W1 = s.W1) (h4 : t.W2 = s.W2) (h5 : t.calibration = s.calibration)
    (h6 : t.fs_adc = s.fs_adc) (h7 : t.demod_map = s.demod_map)
    (hs : WindowConsistent prm lib s) : WindowConsistent prm lib t := by
  unfold WindowConsistent at hs ⊢
  rw [h1, h2, h3, h4, h5, h6, h7]
  exact hs

theorem set_offsets_preserves (prm : Prm) (lib : SciCpp) (s : State) (off0 off1 : Nat)
    (hs : WindowConsistent prm lib s) :
    WindowConsistent prm lib (set_offsets s off0 off1) :=
  consistent_of_same_window_part prm lib s _ rfl rfl rfl rfl rfl rfl rfl hs

theorem select_adc_channel_preserves (prm : Prm) (lib : SciCpp) (s : State) (channel : Nat)
    (hs : WindowConsistent prm lib s) :
    WindowConsistent prm lib (select_adc_channel s channel) := by
  unfold select_adc_channel
  split
  · exact consistent_of_same_window_part prm lib s _ rfl rfl rfl rfl rfl rfl rfl hs
  · split
    · exact consistent_of_same_window_part prm lib s _ rfl rfl rfl rfl rfl rfl rfl hs
    · split
      · exact consistent_of_same_window_part prm lib s _ rfl rfl rfl rfl rfl rfl rfl hs
      · exact hs

theorem set_operation_preserves (prm : Prm) (lib : SciCpp) (s : State) (operation : Nat)
    (hs : WindowConsistent prm lib s) :
    WindowConsistent prm lib (set_operation s operation) :=
  consistent_of_same_window_part prm lib s _ rfl rfl rfl rfl rfl rfl rfl hs

theorem set_scale_sch_preserves (prm : Prm) (lib : SciCpp) (s : State) (scale_sch : Nat)
    (hs : WindowConsistent prm lib s) :
    WindowConsistent prm lib (set_scale_sch s scale_sch) :=
  consistent_of_same_window_part prm lib s _ rfl rfl rfl rfl rfl rfl rfl hs

theorem start_psd_acquisition_preserves (prm : Prm) (lib : SciCpp) (s : State)
    (hs : WindowConsistent prm lib s) :
    WindowConsistent prm lib (start_psd_acquisition prm s) := by
  unfold start_psd_acquisition
  split
  · exact consistent_of_same_window_part prm lib s _ rfl rfl rfl rfl rfl rfl rfl hs
  · exact hs

theorem apply_call_preserves (prm : Prm) (lib : SciCpp) (s : State) (c : Call)
    (hs : WindowConsistent prm lib s) :
    WindowConsistent prm lib (apply_call prm lib s c) := by
  cases c with
  | set_offsets off0 off1 => exact set_offsets_preserves prm lib s off0 off1 hs
  | select_adc_channel channel => exact select_adc_channel_preserves prm lib s channel hs
  | set_operation operation => exact set_operation_preserves prm lib s operation hs
  | set_scale_sch scale_sch => exact set_scale_sch_preserves prm lib s scale_sch hs
  | set_fft_window window_id fs_read =>
    exact set_fft_window_preserves prm lib s window_id fs_read hs

theorem run_calls_preserves (prm : Prm) (lib : SciCpp) (calls : List Call) :
    ∀ s : State, WindowConsistent prm lib s →
      WindowConsistent prm lib (run_calls prm lib s calls) := by
  induction calls with
  | nil =>
    intro s hs
    exact hs
  | cons c cs ih =>
    intro s hs
    exact ih (apply_call prm lib s c) (apply_call_preserves prm lib s c hs)

theorem ctor_consistent (prm : Prm) (lib : SciCpp) (mem : State) (fs_read : ℚ) :
    WindowConsistent prm lib (ctor prm lib mem fs_read) := by
  unfold ctor
  exact start_psd_acquisition_preserves prm lib _
    (set_fft_window_valid_consistent prm lib _ 1 fs_read (by decide))

/-- C4: in every state reached from the constructor by any sequence of setter
calls (in particular any sequence of `set_fft_window` calls, with valid or
invalid ids, whatever the clock generator reports at each call), the stored
quantities all derive from the canonical window of the stored `window_index`:
`window = canonical(window_index)`, `W1 = s1(window) / fft_size^2`,
`W2 = s2(window) / fft_size`,
`calibration[0] = calibration[1] = (2.048 / 2^22)^2 / n_cycles / fs_adc / W2`,
and the hardware coefficient table is the element-wise encoding of `window`. -/
theorem C4_window_consistency (prm : Prm) (lib : SciCpp) (mem : State) (fs_read : ℚ)
    (calls : List Call) :
    canonical prm lib (run_calls prm lib (ctor prm lib mem fs_read) calls).window_index
      = some (run_calls prm lib (ctor prm lib mem fs_read) calls).window ∧
    (run_calls prm lib (ctor prm lib mem fs_read) calls).W1
      = lib.s1 (run_calls prm lib (ctor prm lib mem fs_read) calls).window
          / (prm.fft_size : ℚ) ^ 2 ∧
    (run_calls prm lib (ctor prm lib mem fs_read) calls).W2
      = lib.s2 (run_calls prm lib (ctor prm lib mem fs_read) calls).window
          / (prm.fft_size : ℚ) ∧
    (run_calls prm lib (ctor prm lib mem fs_read) calls).calibration.1
      = ((2.048 : ℚ) / 2 ^ 22) ^ 2 / (prm.n_cycles : ℚ)
          / (run_calls prm lib (ctor prm lib mem fs_read) calls).fs_adc
          / (run_calls prm lib (ctor prm lib mem fs_read) calls).W2 ∧
    (run_calls prm lib (ctor prm lib mem fs_read) calls).calibration.2
      = ((2.048 : ℚ) / 2 ^ 22) ^ 2 / (prm.n_cycles : ℚ)
          / (run_calls prm lib (ctor prm lib mem fs_read) calls).fs_adc
          / (run_calls prm lib (ctor prm lib mem fs_read) calls).W2 ∧
    (run_calls prm lib (ctor prm lib mem fs_read) calls).demod_map
      = (run_calls prm lib (ctor prm lib mem fs_read) calls).window.map window_code :=
  run_calls_preserves prm lib calls _ (ctor_consistent prm lib mem fs_read)

/-! ## FFT: publication of one cycle -/

/-- C7: for every hardware PSD vector `h` of length `fft_size / 2` and every
state with `input_channel` in `{0, 1}`, the publish step of one cycle succeeds
and sets `psd_buffer_raw = h` and `psd_buffer[i] = h[i] *
calibration[input_channel]` for every bin, so that `read_psd_raw` and
`read_psd` afterwards return a raw and a calibrated vector of the same cycle
with `calibrated[i] = raw[i] * calibration[input_channel]`. -/
theorem C7_publish_cycle (prm : Prm) (s : State) (h : List ℚ) (cycle_read : Nat)
    (hlen : h.length = prm.fft_size / 2)
    (hch : s.input_channel = 0 ∨ s.input_channel = 1) :
    ∃ (s' : State) (c : ℚ),
      publish_cycle s h cycle_read = some s' ∧
      calibration_at s.calibration s.input_channel = some c ∧
      c = (if s.input_channel = 0 then s.calibration.1 else s.calibration.2) ∧
      s'.psd_buffer_raw = h ∧
      read_psd_raw s' = h ∧
      (read_psd s').length = prm.fft_size / 2 ∧
      (read_psd_raw s').length = prm.fft_size / 2 ∧
      (∀ i : Nat, i < prm.fft_size / 2 →
        s'.psd_buffer.getD i 0 = h.getD i 0 * c) ∧
      (∀ i : Nat, i < prm.fft_size / 2 →
        (read_psd s').getD i 0 = (read_psd_raw s').getD i 0 * c) := by
  have hmap : ∀ (c : ℚ) (i : Nat), (h.map (fun x => x * c)).getD i 0 = h.getD i 0 * c := by
    intro c i
    rw [List.getD_eq_getElem?_getD, List.getD_eq_getElem?_getD, List.getElem?_map]
    cases h[i]? <;> simp
  obtain ⟨c, hc, hcal⟩ : ∃ c : ℚ,
      c = (if s.input_channel = 0 then s.calibration.1 else s.calibration.2) ∧
      calibration_at s.calibration s.input_channel = some c := by
    rcases hch with h0 | h1
    · exact ⟨s.calibration.1, by rw [if_pos h0], by rw [h0]; rfl⟩
    · exact ⟨s.calibration.2, by rw [h1]; rfl, by rw [h1]; rfl⟩
  have hpub : publish_cycle s h cycle_read
      = some { s with
          psd_buffer_raw := h
          psd_buffer := h.map (fun x => x * c)
          acq_cycle_index := cycle_read } := by
    unfold publish_cycle
    rw [hcal]
  refine ⟨_, c, hpub, hcal, hc, rfl, rfl, ?_, hlen, ?_, ?_⟩
  · show (h.map (fun x => x * c)).length = _
    rw [List.length_map, hlen]
  · intro i _
    exact hmap c i
  · intro i _
    exact hmap c i

/-- Witness of C7: a freshly constructed `FFT` (channel 0) and a hardware
vector of length `fft_size / 2 = 4`. -/
theorem C7_publish_cycle_witness :
    ∃ (s' : State) (c : ℚ),
      publish_cycle sample_fft [1, 2, 3, 4] 1 = some s' ∧
      calibration_at sample_fft.calibration sample_fft.input_channel = some c ∧
      c = (if sample_fft.input_channel = 0 then sample_fft.calibration.1
        else sample_fft.calibration.2) ∧
      s'.psd_buffer_raw = [1, 2, 3, 4] ∧
      read_psd_raw s' = [1, 2, 3, 4] ∧
      (read_psd s').length = sample_prm.fft_size / 2 ∧
      (read_psd_raw s').length = sample_prm.fft_size / 2 ∧
      (∀ i : Nat, i < sample_prm.fft_size / 2 →
        s'.psd_buffer.getD i 0 = ([1, 2, 3, 4] : List ℚ).getD i 0 * c) ∧
      (∀ i : Nat, i < sample_prm.fft_size / 2 →
        (read_psd s').getD i 0 = (read_psd_raw s').getD i 0 * c) :=
  C7_publish_cycle sample_prm sample_fft [1, 2, 3, 4] 1 (by decide) (Or.inl rfl)

/-! ## FFT: encoding of the window coefficients -/

theorem trunc_mono (x y : ℚ) (h : x ≤ y) : trunc x ≤ trunc y := by
  unfold trunc
  by_cases hx : 0 ≤ x
  · have hy : 0 ≤ y := le_trans hx h
    rw [if_pos hx, if_pos hy]
    exact Int.floor_mono h
  · rw [if_neg hx]
    by_cases hy : 0 ≤ y
    · rw [if_pos hy]
      have h1 : ⌈x⌉ ≤ 0 := by
        rw [Int.ceil_le]
        push_cast
        exact le_of_lt (not_le.mp hx)
      have h2 : 0 ≤ ⌊y⌋ := Int.floor_nonneg.mpr hy
      exact le_trans h1 h2
    · rw [if_neg hy]
      exact Int.ceil_mono h

theorem trunc_ge (x : ℚ) (z : Int) (hz : z ≤ 0) (h : (z : ℚ) ≤ x) : z ≤ trunc x := by
  unfold trunc
  split
  · rename_i hx
    exact le_trans hz (Int.floor_nonneg.mpr hx)
  · exact Int.cast_le.mp (le_trans h (Int.le_ceil x))

theorem trunc_le (x : ℚ) (z : Int) (hz : 0 ≤ z) (h : x ≤ (z : ℚ)) : trunc x ≤ z := by
  unfold trunc
  split
  · exact Int.cast_le.mp (le_trans (Int.floor_le x) h)
  · rename_i hx
    have h1 : ⌈x⌉ ≤ 0 := by
      rw [Int.ceil_le]
      push_cast
      exact le_of_lt (not_le.mp hx)
    exact le_trans h1 hz

theorem trunc_lt (x : ℚ) (z : Int) (hz : 0 < z) (h : x < (z : ℚ)) : trunc x < z := by
  unfold trunc
  split
  · exact Int.floor_lt.mpr h
  · rename_i hx
    have h1 : ⌈x⌉ ≤ 0 := by
      rw [Int.ceil_le]
      push_cast
      exact le_of_lt (not_le.mp hx)
    omega

theorem trunc_scaled_bounds (w : ℚ) (h1 : -1 ≤ w) (h2 : w ≤ 1) :
    -32768 ≤ trunc (32768 * w) ∧ trunc (32768 * w) ≤ 32768 := by
  constructor
  · apply trunc_ge _ _ (by decide)
    push_cast
    linarith
  · apply trunc_le _ _ (by decide)
    push_cast
    linarith

theorem trunc_scaled_lt (w : ℚ) (h : w < 1) : trunc (32768 * w) ≤ 32767 := by
  have := trunc_lt (32768 * w) 32768 (by decide) (by push_cast; linarith)
  omega

/-- The code of a coefficient whose scaled truncation `t` fits 16 signed bits
is `t + 65536`. -/
theorem window_code_of_fits (w : ℚ) (h1 : -32768 ≤ trunc (32768 * w))
    (h2 : trunc (32768 * w) ≤ 32767) :
    ((window_code w : Nat) : Int) = trunc (32768 * w) + 65536 := by
  unfold window_code
  rw [Int.tmod_eq_of_lt (by omega) (by omega), Int.emod_eq_of_lt (by omega) (by omega)]
  omega

theorem window_code_one : window_code 1 = 32768 := by
  norm_num [window_code, trunc]
  decide

theorem trunc_scaled_one : trunc (32768 * 1) = 32768 := by
  norm_num [trunc]

/-- C10 (as amended): for every coefficient `w` with `-1 ≤ w ≤ 1` the code
`enc(w)` lies in `[32768, 98303]` and its low 16 bits equal
`trunc(32768 * w)` modulo `65536`; for `w < 1` these 16 bits are the 16-bit
two's-complement representation of `trunc(32768 * w)`, and `enc` is monotone
non-decreasing on `[-1, 1)`. -/
theorem C10_window_code_amended (w : ℚ) (h1 : -1 ≤ w) (h2 : w ≤ 1) :
    32768 ≤ window_code w ∧ window_code w ≤ 98303 ∧
    ((window_code w % 65536 : Nat) : Int) = trunc (32768 * w) % 65536 ∧
    (w < 1 → twos_complement16 (trunc (32768 * w)) = some (window_code w % 65536)) ∧
    (∀ w' : ℚ, w ≤ w' → w' < 1 → window_code w ≤ window_code w') := by
  obtain ⟨hlo, hhi⟩ := trunc_scaled_bounds w h1 h2
  have hlt : w < 1 → 32768 ≤ window_code w ∧ window_code w ≤ 98303 ∧
      ((window_code w % 65536 : Nat) : Int) = trunc (32768 * w) % 65536 ∧
      twos_complement16 (trunc (32768 * w)) = some (window_code w % 65536) := by
    intro hw
    have h3 := trunc_scaled_lt w hw
    have hc := window_code_of_fits w hlo h3
    refine ⟨by omega, by omega, by omega, ?_⟩
    unfold twos_complement16
    rw [if_pos ⟨hlo, h3⟩]
    congr 1
    split <;> omega
  have hmono : ∀ w' : ℚ, w ≤ w' → w' < 1 → window_code w ≤ window_code w' := by
    intro w' hww hw'
    have hw : w < 1 := lt_of_le_of_lt hww hw'
    have h3 := trunc_scaled_lt w hw
    have hc := window_code_of_fits w hlo h3
    have hlo' := (trunc_scaled_bounds w' (le_trans h1 hww) (le_of_lt hw')).1
    have h3' := trunc_scaled_lt w' hw'
    have hc' := window_code_of_fits w' hlo' h3'
    have hm := trunc_mono (32768 * w) (32768 * w') (by linarith)
    omega
  rcases lt_or_eq_of_le h2 with hw | hw
  · obtain ⟨a, b, c, d⟩ := hlt hw
    exact ⟨a, b, c, fun _ => d, hmono⟩
  · subst hw
    refine ⟨?_, ?_, ?_, fun hcontra => absurd hcontra (lt_irrefl _), hmono⟩
    · rw [window_code_one]
    · rw [window_code_one]
      decide
    · rw [window_code_one, trunc_scaled_one]
      decide

/-- Witness of C10 (as amended): the coefficient `1/2`. -/
theorem C10_window_code_amended_witness :
    32768 ≤ window_code (1 / 2) ∧ window_code (1 / 2) ≤ 98303 ∧
    ((window_code (1 / 2) % 65536 : Nat) : Int) = trunc (32768 * (1 / 2)) % 65536 ∧
    ((1 / 2 : ℚ) < 1 →
      twos_complement16 (trunc (32768 * (1 / 2))) = some (window_code (1 / 2) % 65536)) ∧
    (∀ w' : ℚ, (1 / 2 : ℚ) ≤ w' → w' < 1 → window_code (1 / 2) ≤ window_code w') :=
  C10_window_code_amended (1 / 2) (by norm_num) (by norm_num)

/-- Counterexample to C10 as stated: `1/2 ≤ 1` within `[-1, 1]`, yet
`enc(1) = 32768` is smaller than `enc(1/2) = 81920`, so `enc` is not monotone
on the whole interval and the coefficient `1.0` gets the smallest code, not
the largest; and `trunc(32768 * 1) = 32768` has no 16-bit two's-complement
representation. -/
theorem C10_window_code_counterexample :
    (-1 : ℚ) ≤ 1 / 2 ∧ (1 / 2 : ℚ) ≤ 1 ∧ (1 : ℚ) ≤ 1 ∧
    window_code 1 = 32768 ∧ window_code (1 / 2) = 81920 ∧
    ¬ (window_code 1 ≥ window_code (1 / 2)) ∧
    twos_complement16 (trunc (32768 * 1)) = none := by
  have h1 : window_code 1 = 32768 := by
    norm_num [window_code, trunc]
    decide
  have h2 : window_code (1 / 2) = 81920 := by
    norm_num [window_code, trunc]
    decide
  have h3 : trunc (32768 * 1) = 32768 := by
    norm_num [trunc]
  refine ⟨by norm_num, by norm_num, le_refl _, h1, h2, ?_, ?_⟩
  · rw [h1, h2]
    decide
  · rw [h3]
    decide

/-! ## FFT: behaviour at the inputs where the code departs from the specification -/

/-- C2 (evaluation of the code): `set_operation` stores any operation id and
sets bit 2 for any non-zero id. On a freshly constructed `FFT` (operation 0,
bit 2 of `channel_select` clear) the call `set_operation(5)` stores 5 and sets
bit 2; the previous operation is not retained. -/
theorem C2_set_operation_stores_any_id :
    (∀ (s : State) (operation : Nat), (set_operation s operation).input_operation = operation) ∧
    sample_fft.input_operation = 0 ∧
    sample_fft.channel_select.testBit 2 = false ∧
    (set_operation sample_fft 5).input_operation = 5 ∧
    (set_operation sample_fft 5).channel_select.testBit 2 = true := by
  refine ⟨fun _ _ => rfl, rfl, ?_, rfl, ?_⟩
  · decide
  · decide

/-- C8 (evaluation of the code): after construction `read_psd` returns
`fft_size / 2` zeros and the decimator's `spectral_density` returns
`1 + n_pts / 2` zeros, but `read_psd_raw` returns whatever the storage of
`psd_buffer_raw` held before construction, which the constructor never writes;
for the memory content `sample_fft_mem` that is `[3, 1, 4, 1]`, not zeros. -/
theorem C8_default_snapshot :
    (∀ (prm : Prm) (lib : SciCpp) (mem : State) (fs_read : ℚ),
      read_psd (ctor prm lib mem fs_read) = List.replicate (prm.fft_size / 2) 0) ∧
    (∀ (prm : Prm) (mem : Decimator.State) (fs_read : ℚ),
      Decimator.spectral_density (Decimator.ctor prm mem fs_read)
        = List.replicate (1 + Decimator.n_pts / 2) 0) ∧
    (∀ (prm : Prm) (lib : SciCpp) (mem : State) (fs_read : ℚ),
      read_psd_raw (ctor prm lib mem fs_read) = mem.psd_buffer_raw) ∧
    read_psd_raw sample_fft = [3, 1, 4, 1] ∧
    read_psd_raw sample_fft ≠ List.replicate (sample_prm.fft_size / 2) 0 := by
  have hraw : ∀ (prm : Prm) (lib : SciCpp) (mem : State) (fs_read : ℚ),
      read_psd_raw (ctor prm lib mem fs_read) = mem.psd_buffer_raw := by
    intro prm lib mem fs_read
    rfl
  refine ⟨?_, ?_, hraw, ?_, ?_⟩
  · intro prm lib mem fs_read
    rfl
  · intro prm mem fs_read
    unfold Decimator.ctor Decimator.set_cic_rate
    split <;> rfl
  · rw [sample_fft, hraw]
    rfl
  · rw [sample_fft, hraw]
    decide

/-- C9 (evaluation of the code): `select_adc_channel(2)` is accepted, so after
the constructor and that call the stored `input_channel` is 2, which is not an
index of the two-element `calibration` array: the lookup
`calibration[input_channel]` of the next acquisition cycle is outside the
array. -/
theorem C9_channel_two_outside_calibration :
    (∀ (prm : Prm) (lib : SciCpp) (mem : State) (fs_read : ℚ),
      (run_calls prm lib (ctor prm lib mem fs_read)
        [Call.select_adc_channel 2]).input_channel = 2) ∧
    (∀ (prm : Prm) (lib : SciCpp) (mem : State) (fs_read : ℚ),
      calibration_at
        (run_calls prm lib (ctor prm lib mem fs_read) [Call.select_adc_channel 2]).calibration
        (run_calls prm lib (ctor prm lib mem fs_read) [Call.select_adc_channel 2]).input_channel
        = none) ∧
    (∀ (prm : Prm) (lib : SciCpp) (mem : State) (fs_read : ℚ) (h : List ℚ) (cycle_read : Nat),
      publish_cycle
        (run_calls prm lib (ctor prm lib mem fs_read) [Call.select_adc_channel 2]) h cycle_read
        = none) ∧
    (select_adc_channel sample_fft 2).input_channel = 2 ∧
    ¬ ((select_adc_channel sample_fft 2).input_channel < 2) ∧
    publish_cycle (select_adc_channel sample_fft 2) [1, 2, 3, 4] 1 = none := by
  refine ⟨fun _ _ _ _ => rfl, fun _ _ _ _ => rfl, fun _ _ _ _ _ _ => rfl, rfl, ?_, rfl⟩
  decide

end FFT

end Koheron
